import Mathlib

/-!
Shallow embedding of the nifty-portfolio-analyzer repository:
src/app.py (portfolio analysis page, weight validation, comparison
verdict, metric display, single stock page) and
src/modules/data_fetcher.py (fetch_stock_data with retry, dropna and
the empty check). Numeric values are modelled as rationals; the
yfinance download is modelled as an oracle giving the outcome of each
attempt.
-/

namespace Nifty

/-- Row of a raw price matrix: a trading date together with one
optional price per requested symbol (none models a missing value). -/
structure PRow where
  date : Nat
  vals : List (Option ℚ)
deriving DecidableEq

/-- True when the row has a price for every symbol (no missing value
in the row). -/
def rowComplete (r : PRow) : Bool :=
  r.vals.all (fun v => v.isSome)

/-- Embedding of data.dropna() in fetch_stock_data: remove every row
that has a missing value in any column. -/
def dropna : List PRow → List PRow
  | [] => []
  | r :: rs => if rowComplete r then r :: dropna rs else dropna rs

/-- Boolean test that pat occurs at the start of s. -/
def startsWithPat : List Char → List Char → Bool
  | [], _ => true
  | _ :: _, [] => false
  | p :: ps, c :: cs => p == c && startsWithPat ps cs

/-- Boolean substring test on character lists, used to model the
Python in operator on strings. -/
def hasSubstr (pat : List Char) : List Char → Bool
  | [] => pat.isEmpty
  | c :: rest => startsWithPat pat (c :: rest) || hasSubstr pat rest

/-- Keywords that fetch_stock_data looks for in the lowercased error
text to classify a failure as rate limiting. -/
def rlKeywords : List String :=
  ["rate", "too many", "throttle", "429", "503", "timeout"]

/-- Text form of a stock list, standing in for the Python str(list)
interpolation. The quotes that Python puts around each name are
omitted; no keyword of rlKeywords contains a quote, so the
classification below is unaffected. -/
def stocksRepr (stocks : List String) : String :=
  "[" ++ String.intercalate ", " stocks ++ "]"

/-- Errors that one iteration of the download body can raise: a
download failure (message from yfinance), or the explicit raise when
the cleaned matrix is empty. -/
inductive FetchErr where
  | download (msg : String)
  | noValid (stocks : List String)
deriving DecidableEq

/-- Message carried by the raised exception, as built by the f-strings
in fetch_stock_data. -/
def errText : FetchErr → String
  | .download msg => msg
  | .noValid stocks => "No valid data retrieved for " ++ stocksRepr stocks

/-- ASCII lowercasing of one character, modelling str.lower (all
messages built by the program are ASCII). -/
def lowerChar (c : Char) : Char :=
  if 65 ≤ c.toNat ∧ c.toNat ≤ 90 then Char.ofNat (c.toNat + 32) else c

/-- Embedding of the rate limit classification: lowercase the error
text and look for any keyword of rlKeywords as a substring. -/
def rateLimited (e : FetchErr) : Bool :=
  rlKeywords.any (fun k => hasSubstr k.toList ((errText e).toList.map lowerChar))

/-- Message of the exception finally raised to the caller: the inner
wrap (Error fetching data for ...) re-raised by the outer handler as
Failed to fetch data for .... Both wraps name the stocks. -/
def wrapMsg (stocks : List String) (e : FetchErr) : String :=
  "Failed to fetch data for " ++ stocksRepr stocks ++ ": Error fetching data for " ++ stocksRepr stocks ++ ": " ++ errText e

/-- Outcome of fetch_stock_data: a price matrix, or the raised
exception together with the stocks it names and its message. -/
inductive FetchOut where
  | ok (m : List PRow)
  | err (stocks : List String) (msg : String)
deriving DecidableEq

/-- Trace of one call of fetch_stock_data: the outcome, the backoff
waits performed (in seconds, in order), and the number of download
attempts made. -/
structure FetchTrace where
  result : FetchOut
  waits : List Nat
  attempts : Nat
deriving DecidableEq

def maxRetries : Nat := 3

def baseWait : Nat := 10

/-- Body of one loop iteration of fetch_stock_data after the download:
on download success, dropna the rows; raise the noValid exception when
the cleaned matrix is empty, else return the cleaned matrix. -/
def attemptOnce (stocks : List String) (dl : Except String (List PRow)) : Except FetchErr (List PRow) :=
  match dl with
  | .error msg => .error (.download msg)
  | .ok raw =>
    let d := dropna raw
    if d = [] then .error (.noValid stocks) else .ok d

/-- Embedding of the retry loop of fetch_stock_data. fuel is the
number of loop iterations still available in the Python for-range and
a the current attempt index; the fuel-exhausted branch is the
fall-through of the for loop, unreachable from the real entry point
because a retry requires a < maxRetries - 1. -/
def fetchLoop (stocks : List String) (oracle : Nat → Except String (List PRow)) : Nat → Nat → FetchTrace
  | 0, _ => ⟨.err stocks "loop exhausted", [], 0⟩
  | fuel + 1, a =>
    match attemptOnce stocks (oracle a) with
    | .ok m => ⟨.ok m, [], 1⟩
    | .error e =>
      if rateLimited e ∧ a < maxRetries - 1 then
        let t := fetchLoop stocks oracle fuel (a + 1)
        ⟨t.result, baseWait * 2 ^ a :: t.waits, t.attempts + 1⟩
      else
        ⟨.err stocks (wrapMsg stocks e), [], 1⟩

/-- fetch_stock_data as a function of the download oracle. -/
def fetchStockData (stocks : List String) (oracle : Nat → Except String (List PRow)) : FetchTrace :=
  fetchLoop stocks oracle maxRetries 0

/-- MetricsResult: string-keyed mapping to rational metric values. -/
abbrev Metrics := List (String × ℚ)

/-- Embedding of metrics.get(key, 0): dictionary lookup with default
value zero. -/
def metricGet (m : Metrics) (k : String) : ℚ :=
  (m.lookup k).getD 0

/-- Values shown by display_metrics, in order (app.py lines 667-688). -/
def displayedMetrics (m : Metrics) : List ℚ :=
  [metricGet m "CAGR", metricGet m "Annual Return", metricGet m "Annual Volatility", metricGet m "Sharpe Ratio", metricGet m "Sortino Ratio", metricGet m "Max Drawdown", metricGet m "Calmar Ratio", metricGet m "Information Ratio"]

/-- Metric names of the comparison table (app.py lines 582-593). -/
def cmpKeys : List String :=
  ["CAGR", "Total Return", "Annual Volatility", "Sharpe Ratio", "Sortino Ratio", "Information Ratio", "Calmar Ratio", "Max Drawdown", "Value at Risk", "Skewness"]

/-- Per-portfolio column of the comparison table, each entry read with
the default-zero lookup. -/
def comparedValues (m : Metrics) : List ℚ :=
  cmpKeys.map (metricGet m)

/-- Verdicts of the quick comparison (app.py lines 646-656). -/
inductive Verdict where
  | bothBetterA
  | bothBetterB
  | higherReturnA
  | higherReturnB
  | comparable
deriving DecidableEq

/-- Winner determination over the two CAGR and the two Sharpe values,
mirroring the if-elif cascade of app.py lines 647-656. -/
def winner (cagrA sharpeA cagrB sharpeB : ℚ) : Verdict :=
  if cagrA > cagrB ∧ sharpeA > sharpeB then .bothBetterA
  else if cagrB > cagrA ∧ sharpeB > sharpeA then .bothBetterB
  else if cagrA > cagrB then .higherReturnA
  else if cagrB > cagrA then .higherReturnB
  else .comparable

/-- Quick comparison of two metrics results: pulls CAGR and Sharpe
with default 0 (app.py lines 626-629) and applies the winner rule. -/
def quickVerdict (ma mb : Metrics) : Verdict :=
  winner (metricGet ma "CAGR") (metricGet ma "Sharpe Ratio") (metricGet mb "CAGR") (metricGet mb "Sharpe Ratio")

/-- Relabeling of a verdict under exchange of the two portfolios. -/
def mirror : Verdict → Verdict
  | .bothBetterA => .bothBetterB
  | .bothBetterB => .bothBetterA
  | .higherReturnA => .higherReturnB
  | .higherReturnB => .higherReturnA
  | .comparable => .comparable

/-- User-visible events of the analyze handler. -/
inductive Event where
  | errorShown (msg : String)
  | noData (stocks : List String)
  | metricsShown (m : Metrics)
  | successShown
  | cmpTable (colA colB : List ℚ)
  | quickCompare (v : Verdict)
  | cmpError
deriving DecidableEq

/-- Events of one per-portfolio block (app.py lines 512-541 for A and
543-572 for B): fetch, empty check, metrics computation and display,
with the enclosing try/except turning any raise into an error event.
Chart rendering is omitted. calc stands for the metrics computation
(PortfolioAnalyzer and MetricsCalculator, whose sources are not in the
repository snapshot); a calc error models an exception raised there. -/
def portfolioSegment (stocks : List String) (fres : FetchOut) (mcalc : List PRow → Except String Metrics) : List Event :=
  if stocks = [] then []
  else
    match fres with
    | .err _ msg => [.errorShown ("Error: " ++ msg)]
    | .ok m =>
      if m = [] then [.noData stocks]
      else
        match mcalc m with
        | .error msg => [.errorShown ("Error: " ++ msg)]
        | .ok mets => [.metricsShown mets, .successShown]

/-- The metrics variable left bound by a per-portfolio block, when
any. -/
def metricsOf (stocks : List String) (fres : FetchOut) (mcalc : List PRow → Except String Metrics) : Option Metrics :=
  if stocks = [] then none
  else
    match fres with
    | .err _ _ => none
    | .ok m => if m = [] then none else (mcalc m).toOption

/-- Comparison block (app.py lines 575-659): runs when both portfolios
are selected; an unbound metrics variable raises a NameError that the
enclosing handler reports as a comparison error. -/
def comparisonSegment (stocksA stocksB : List String) (ma mb : Option Metrics) : List Event :=
  if stocksA ≠ [] ∧ stocksB ≠ [] then
    match ma, mb with
    | some a, some b => [.cmpTable (comparedValues a) (comparedValues b), .quickCompare (quickVerdict a b)]
    | _, _ => [.cmpError]
  else []

/-- Whole analyze handler after the validation gate (app.py lines
510-662): the A block, then the B block, then the comparison block. -/
def showAnalysis (stocksA stocksB : List String) (fA fB : FetchOut) (mcalcA mcalcB : List PRow → Except String Metrics) : List Event :=
  portfolioSegment stocksA fA mcalcA ++ portfolioSegment stocksB fB mcalcB ++ comparisonSegment stocksA stocksB (metricsOf stocksA fA mcalcA) (metricsOf stocksB fB mcalcB)

/-- Embedding of validate_weights (app.py lines 470-476): an empty
weight dict is valid; otherwise the total must lie within 0.01 of
100. -/
def validWeights (w : List ℚ) : Bool :=
  if w = [] then true
  else if |w.sum - 100| > 1/100 then false else true

/-- Outcome of the validation gate behind the analyze button. -/
inductive GateOutcome where
  | stopped (name : String) (total : ℚ)
  | proceed (runA runB : Bool)
deriving DecidableEq

/-- Gate logic (app.py lines 499-512): validate both weight dicts,
stop with an error naming the portfolio and its total at the first
failure, else proceed into the per-portfolio blocks. -/
def analyzeGate (wa wb : List ℚ) : GateOutcome :=
  if wa ≠ [] ∧ validWeights wa = false then .stopped "Portfolio A" wa.sum
  else if wb ≠ [] ∧ validWeights wb = false then .stopped "Portfolio B" wb.sum
  else .proceed (wa ≠ []) (wb ≠ [])

/-- Whether the run proceeds into the Portfolio A computation. -/
def invokedA : GateOutcome → Bool
  | .proceed a _ => a
  | _ => false

/-- Whether the run proceeds into the Portfolio B computation. -/
def invokedB : GateOutcome → Bool
  | .proceed _ b => b
  | _ => false

/-- Arguments of the shared analyzer-plus-calculator call chain:
PortfolioAnalyzer(stocks, weights, data) followed by
MetricsCalculator(data, analyzer, rf).calculate_all_metrics(). -/
structure PipelineCall where
  stocks : List String
  weights : List (String × ℚ)
  data : List PRow
  rf : ℚ
deriving DecidableEq

/-- Call made by the portfolio analysis page for one portfolio. -/
def portfolioPipeline (stocks : List String) (weights : List (String × ℚ)) (data : List PRow) (rf : ℚ) : PipelineCall :=
  ⟨stocks, weights, data, rf⟩

/-- Call made by the single stock page (app.py lines 712-714): one
symbol carrying weight 100 (percent). -/
def singleStockPipeline (s : String) (data : List PRow) (rf : ℚ) : PipelineCall :=
  portfolioPipeline [s] [(s, 100)] data rf

/-- Modelled from the spec: PortfolioAnalyzer and MetricsCalculator
are absent from the source snapshot; per the spec the core accepts
weights as fractions computed as weight/100. -/
def specWeightFraction (w : ℚ) : ℚ :=
  w / 100

/-- Download oracle that fails every attempt with a rate limit
message. -/
def oracleRL : Nat → Except String (List PRow) :=
  fun _ => .error "HTTP 429: rate limit"

/-- Raw matrix in which every row has a missing value. -/
def rawGaps : List PRow :=
  [⟨0, [none]⟩]

/-- Download oracle that always returns rawGaps. -/
def oracleGaps : Nat → Except String (List PRow) :=
  fun _ => .ok rawGaps

/-- Raw matrix with no missing values. -/
def rawClean : List PRow :=
  [⟨0, [some 1]⟩, ⟨1, [some 2]⟩]

/-- Download oracle that always returns rawClean. -/
def oracleClean : Nat → Except String (List PRow) :=
  fun _ => .ok rawClean

/-- Second clean raw matrix, for a separate concrete instance. -/
def rawClean2 : List PRow :=
  [⟨0, [some 3]⟩, ⟨1, [some 4]⟩, ⟨2, [some 5]⟩]

/-- Download oracle that always returns rawClean2. -/
def oracleClean2 : Nat → Except String (List PRow) :=
  fun _ => .ok rawClean2

/-- Helper: dropna is row-wise filtering on completeness. -/
theorem dropna_eq_filter (l : List PRow) : dropna l = l.filter rowComplete := by
  induction l with
  | nil => rfl
  | cons r rs ih =>
    by_cases h : rowComplete r <;> simp [dropna, h, ih, List.filter_cons]

/-- Helper: membership in the cleaned matrix. -/
theorem mem_dropna {l : List PRow} {r : PRow} :
    r ∈ dropna l ↔ r ∈ l ∧ rowComplete r = true := by
  rw [dropna_eq_filter]
  exact List.mem_filter

/-- Helper: inversion of a successful attempt body. -/
theorem attemptOnce_ok {stocks : List String} {dl : Except String (List PRow)}
    {m : List PRow} (h : attemptOnce stocks dl = .ok m) :
    (∃ raw, dl = .ok raw ∧ m = dropna raw) ∧ m ≠ [] ∧ ∀ r ∈ m, rowComplete r = true := by
  cases dl with
  | error msg => simp [attemptOnce] at h
  | ok raw =>
    simp only [attemptOnce] at h
    split at h
    · exact absurd h (by simp)
    · rename_i hne
      cases h
      exact ⟨⟨raw, rfl, rfl⟩, hne, fun r hr => (mem_dropna.mp hr).2⟩

/-- Helper: every successful fetch outcome is the cleaned matrix of
some attempt. -/
theorem fetch_ok_attempt {stocks : List String}
    {oracle : Nat → Except String (List PRow)} {m : List PRow}
    (h : (fetchStockData stocks oracle).result = .ok m) :
    ∃ a, attemptOnce stocks (oracle a) = .ok m := by
  unfold fetchStockData maxRetries at h
  cases h0 : attemptOnce stocks (oracle 0) with
  | ok m0 =>
    refine ⟨0, ?_⟩
    rw [h0]
    simp [fetchLoop, h0] at h
    rw [h]
  | error e0 =>
    simp only [fetchLoop, h0] at h
    split at h
    · cases h1 : attemptOnce stocks (oracle 1) with
      | ok m1 =>
        refine ⟨1, ?_⟩
        rw [h1]
        simp [fetchLoop, h1] at h
        rw [h]
      | error e1 =>
        simp only [fetchLoop, h1] at h
        split at h
        · cases h2 : attemptOnce stocks (oracle 2) with
          | ok m2 =>
            refine ⟨2, ?_⟩
            rw [h2]
            simp [fetchLoop, h2] at h
            rw [h]
          | error e2 =>
            simp [fetchLoop, h2, maxRetries] at h
        · simp at h
    · simp at h

/-- Helper: mirrored winner under exchange of the inputs. -/
theorem mirror_winner (ca sa cb sb : ℚ) :
    mirror (winner ca sa cb sb) = winner cb sb ca sa := by
  unfold winner
  split_ifs <;> simp_all [mirror] <;> linarith

/-- C1: the quick comparison verdict follows the dominance cascade of
app.py lines 646-656: strict dominance on both CAGR and Sharpe gives
the outright win for that portfolio, a strict CAGR win without a
Sharpe win gives the higher-return verdict for that portfolio, and
equal CAGRs give Comparable whatever the Sharpe values are; at
A(CAGR 0.12, Sharpe 0.9) and B(CAGR 0.08, Sharpe 1.2) the verdict is
higher-return for A. -/
theorem c1_verdict_rule : ∀ ca sa cb sb : ℚ,
    ((ca > cb ∧ sa > sb) → winner ca sa cb sb = .bothBetterA)
    ∧ ((cb > ca ∧ sb > sa) → winner ca sa cb sb = .bothBetterB)
    ∧ ((ca > cb ∧ ¬ sa > sb) → winner ca sa cb sb = .higherReturnA)
    ∧ ((cb > ca ∧ ¬ sb > sa) → winner ca sa cb sb = .higherReturnB)
    ∧ (ca = cb → winner ca sa cb sb = .comparable)
    ∧ winner (12/100) (9/10) (8/100) (12/10) = .higherReturnA := by
  intro ca sa cb sb
  refine ⟨?_, ?_, ?_, ?_, ?_, by norm_num [winner]⟩
  · rintro ⟨h1, h2⟩
    unfold winner
    rw [if_pos ⟨h1, h2⟩]
  · rintro ⟨h1, h2⟩
    unfold winner
    rw [if_neg (by rintro ⟨h3, _⟩; exact absurd h3 (lt_asymm h1)), if_pos ⟨h1, h2⟩]
  · rintro ⟨h1, h2⟩
    unfold winner
    rw [if_neg (by rintro ⟨_, h4⟩; exact h2 h4),
      if_neg (by rintro ⟨h3, _⟩; exact absurd h3 (lt_asymm h1)), if_pos h1]
  · rintro ⟨h1, h2⟩
    unfold winner
    rw [if_neg (by rintro ⟨h3, _⟩; exact absurd h3 (lt_asymm h1)),
      if_neg (by rintro ⟨_, h4⟩; exact h2 h4),
      if_neg (fun h3 => absurd h3 (lt_asymm h1)), if_pos h1]
  · intro h
    subst h
    simp [winner, lt_self_iff_false]

/-- Witness for C1 at the concrete scenario values. -/
theorem c1_verdict_rule_witness :
    ((12:ℚ)/100 > 8/100 ∧ ¬ (9:ℚ)/10 > 12/10)
    ∧ winner (12/100) (9/10) (8/100) (12/10) = .higherReturnA :=
  ⟨⟨by norm_num, by norm_num⟩,
    (c1_verdict_rule (12/100) (9/10) (8/100) (12/10)).2.2.1 ⟨by norm_num, by norm_num⟩⟩

/-- C2: the aligned matrix keeps exactly the rows in which every
symbol has a price (dropna is the completeness filter, and membership
in the result is membership in the raw rows plus completeness), and
every matrix returned by fetch_stock_data is a dropna image with no
internal gap. -/
theorem c2_alignment_invariant :
    (∀ raw : List PRow, dropna raw = raw.filter rowComplete)
    ∧ (∀ (raw : List PRow) (r : PRow), r ∈ dropna raw ↔ r ∈ raw ∧ rowComplete r = true)
    ∧ (∀ (stocks : List String) (oracle : Nat → Except String (List PRow)) (m : List PRow),
        (fetchStockData stocks oracle).result = .ok m →
        (∃ a raw, oracle a = .ok raw ∧ m = dropna raw) ∧ ∀ r ∈ m, rowComplete r = true) := by
  refine ⟨dropna_eq_filter, fun _ _ => mem_dropna, ?_⟩
  intro stocks oracle m h
  obtain ⟨a, ha⟩ := fetch_ok_attempt h
  obtain ⟨⟨raw, hraw, hm⟩, _, hcomp⟩ := attemptOnce_ok ha
  exact ⟨⟨a, raw, hraw, hm⟩, hcomp⟩

/-- Witness for C2 on a concrete clean fetch. -/
theorem c2_alignment_invariant_witness :
    (fetchStockData ["RELIANCE"] oracleClean).result = .ok rawClean
    ∧ ∀ r ∈ rawClean, rowComplete r = true := by
  have hres : (fetchStockData ["RELIANCE"] oracleClean).result = .ok rawClean := by decide
  exact ⟨hres, (c2_alignment_invariant.2.2 ["RELIANCE"] oracleClean rawClean hres).2⟩

/-- Helper: appending a zero-valued entry never changes a default-zero
lookup. -/
theorem metricGet_append_zero (m : Metrics) (k key : String) :
    metricGet (m ++ [(k, 0)]) key = metricGet m key := by
  unfold metricGet
  induction m with
  | nil =>
    simp only [List.nil_append, List.lookup]
    by_cases h : (key == k) <;> simp [h]
  | cons p ps ih =>
    obtain ⟨k1, v1⟩ := p
    by_cases h : (key == k1) <;> simp [List.lookup, h, ih]

/-- C7: the default-zero dictionary lookup used for display and
comparison is total, returns the stored value when the name is
present and 0 when it is absent, and an absent name is
indistinguishable from one stored as 0 in every displayed and
compared value; in particular an absent Information Ratio is shown
as 0. -/
theorem c7_default_zero_lookup : ∀ (m : Metrics) (k : String),
    (m.lookup k = none → metricGet m k = 0)
    ∧ (∀ v, m.lookup k = some v → metricGet m k = v)
    ∧ (∀ key, metricGet (m ++ [(k, 0)]) key = metricGet m key)
    ∧ displayedMetrics (m ++ [(k, 0)]) = displayedMetrics m
    ∧ comparedValues (m ++ [(k, 0)]) = comparedValues m
    ∧ (m.lookup "Information Ratio" = none → metricGet m "Information Ratio" = 0) := by
  intro m k
  refine ⟨?_, ?_, metricGet_append_zero m k, ?_, ?_, ?_⟩
  · intro h
    unfold metricGet
    rw [h]
    rfl
  · intro v h
    unfold metricGet
    rw [h]
    rfl
  · simp [displayedMetrics, metricGet_append_zero]
  · simp [comparedValues, cmpKeys, metricGet_append_zero]
  · intro h
    unfold metricGet
    rw [h]
    rfl

/-- Witness for C7: a result without Information Ratio displays 0 for
it. -/
theorem c7_default_zero_lookup_witness :
    ([("CAGR", (12:ℚ)/100)] : Metrics).lookup "Information Ratio" = none
    ∧ metricGet [("CAGR", (12:ℚ)/100)] "Information Ratio" = 0 := by
  have h : ([("CAGR", (12:ℚ)/100)] : Metrics).lookup "Information Ratio" = none := rfl
  exact ⟨h, (c7_default_zero_lookup [("CAGR", (12:ℚ)/100)] "Beta").2.2.2.2.2 h⟩

/-- C8: the single stock page invokes the very same analyzer plus
calculator pipeline as the portfolio page, with the weight dict
holding exactly the selected symbol at the full portfolio weight of
100 percent, which the spec-modelled weight/100 convention turns into
the fraction 1. -/
theorem c8_single_stock_degenerate : ∀ (s : String) (data : List PRow) (rf : ℚ),
    singleStockPipeline s data rf = portfolioPipeline [s] [(s, 100)] data rf
    ∧ (singleStockPipeline s data rf).weights = [(s, 100)]
    ∧ (singleStockPipeline s data rf).weights.map (fun p => (p.1, specWeightFraction p.2)) = [(s, 1)]
    ∧ specWeightFraction 100 = 1 := by
  intro s data rf
  refine ⟨rfl, rfl, ?_, by norm_num [specWeightFraction]⟩
  simp [singleStockPipeline, portfolioPipeline, specWeightFraction]

/-- C9: the quick verdict is a function of the two CAGR and the two
Sharpe values alone, and exchanging the two metrics results mirrors
the verdict. -/
theorem c9_pure_order_independent : ∀ (ma mb ma2 mb2 : Metrics) (ca sa cb sb : ℚ),
    quickVerdict ma mb = winner (metricGet ma "CAGR") (metricGet ma "Sharpe Ratio") (metricGet mb "CAGR") (metricGet mb "Sharpe Ratio")
    ∧ ((metricGet ma "CAGR" = metricGet ma2 "CAGR"
        ∧ metricGet ma "Sharpe Ratio" = metricGet ma2 "Sharpe Ratio"
        ∧ metricGet mb "CAGR" = metricGet mb2 "CAGR"
        ∧ metricGet mb "Sharpe Ratio" = metricGet mb2 "Sharpe Ratio")
        → quickVerdict ma mb = quickVerdict ma2 mb2)
    ∧ mirror (winner ca sa cb sb) = winner cb sb ca sa
    ∧ quickVerdict mb ma = mirror (quickVerdict ma mb) := by
  intro ma mb ma2 mb2 ca sa cb sb
  refine ⟨rfl, ?_, mirror_winner ca sa cb sb, ?_⟩
  · rintro ⟨e1, e2, e3, e4⟩
    unfold quickVerdict
    rw [e1, e2, e3, e4]
  · unfold quickVerdict
    rw [mirror_winner]

/-- Witness for C9: two results agreeing on CAGR and Sharpe but
differing elsewhere get the same verdict. -/
theorem c9_pure_order_independent_witness :
    quickVerdict [("CAGR", (1:ℚ))] [] = quickVerdict [("CAGR", (1:ℚ)), ("Beta", 5)] [("Alpha", 2)] :=
  (c9_pure_order_independent [("CAGR", (1:ℚ))] [] [("CAGR", (1:ℚ)), ("Beta", 5)] [("Alpha", 2)] 0 0 0 0).2.1
    ⟨rfl, rfl, rfl, rfl⟩

/-- Helper: complete case analysis of one fetch_stock_data run. -/
theorem fetch_cases (stocks : List String) (oracle : Nat → Except String (List PRow)) :
    (∃ m, attemptOnce stocks (oracle 0) = .ok m
      ∧ fetchStockData stocks oracle = ⟨.ok m, [], 1⟩)
    ∨ (∃ e0, attemptOnce stocks (oracle 0) = .error e0 ∧ rateLimited e0 = false
      ∧ fetchStockData stocks oracle = ⟨.err stocks (wrapMsg stocks e0), [], 1⟩)
    ∨ (∃ e0 m, attemptOnce stocks (oracle 0) = .error e0 ∧ rateLimited e0 = true
      ∧ attemptOnce stocks (oracle 1) = .ok m
      ∧ fetchStockData stocks oracle = ⟨.ok m, [10], 2⟩)
    ∨ (∃ e0 e1, attemptOnce stocks (oracle 0) = .error e0 ∧ rateLimited e0 = true
      ∧ attemptOnce stocks (oracle 1) = .error e1 ∧ rateLimited e1 = false
      ∧ fetchStockData stocks oracle = ⟨.err stocks (wrapMsg stocks e1), [10], 2⟩)
    ∨ (∃ e0 e1 m, attemptOnce stocks (oracle 0) = .error e0 ∧ rateLimited e0 = true
      ∧ attemptOnce stocks (oracle 1) = .error e1 ∧ rateLimited e1 = true
      ∧ attemptOnce stocks (oracle 2) = .ok m
      ∧ fetchStockData stocks oracle = ⟨.ok m, [10, 20], 3⟩)
    ∨ (∃ e0 e1 e2, attemptOnce stocks (oracle 0) = .error e0 ∧ rateLimited e0 = true
      ∧ attemptOnce stocks (oracle 1) = .error e1 ∧ rateLimited e1 = true
      ∧ attemptOnce stocks (oracle 2) = .error e2
      ∧ fetchStockData stocks oracle = ⟨.err stocks (wrapMsg stocks e2), [10, 20], 3⟩) := by
  cases h0 : attemptOnce stocks (oracle 0) with
  | ok m =>
    exact Or.inl ⟨m, rfl, by simp [fetchStockData, fetchLoop, maxRetries, h0]⟩
  | error e0 =>
    cases hr0 : rateLimited e0 with
    | false =>
      exact Or.inr (Or.inl ⟨e0, rfl, hr0,
        by simp [fetchStockData, fetchLoop, maxRetries, h0, hr0]⟩)
    | true =>
      cases h1 : attemptOnce stocks (oracle 1) with
      | ok m =>
        refine Or.inr (Or.inr (Or.inl ⟨e0, m, rfl, hr0, rfl, ?_⟩))
        simp [fetchStockData, fetchLoop, maxRetries, baseWait, h0, hr0, h1]
      | error e1 =>
        cases hr1 : rateLimited e1 with
        | false =>
          refine Or.inr (Or.inr (Or.inr (Or.inl ⟨e0, e1, rfl, hr0, rfl, hr1, ?_⟩)))
          simp [fetchStockData, fetchLoop, maxRetries, baseWait, h0, hr0, h1, hr1]
        | true =>
          cases h2 : attemptOnce stocks (oracle 2) with
          | ok m =>
            refine Or.inr (Or.inr (Or.inr (Or.inr (Or.inl ⟨e0, e1, m, rfl, hr0, rfl, hr1, rfl, ?_⟩))))
            simp [fetchStockData, fetchLoop, maxRetries, baseWait, h0, hr0, h1, hr1, h2]
          | error e2 =>
            refine Or.inr (Or.inr (Or.inr (Or.inr (Or.inr ⟨e0, e1, e2, rfl, hr0, rfl, hr1, rfl, ?_⟩))))
            simp [fetchStockData, fetchLoop, maxRetries, baseWait, h0, hr0, h1, hr1, h2]

/-- C6 counterexample: even when every attempt fails with a rate
limit error, the waits performed are 10s and 20s only — the wait list
is not the (10s, 20s, 40s) sequence stated by the claim, and a 40s
wait never occurs. -/
theorem c6_retry_counterexample :
    (fetchStockData ["TCS"] oracleRL).attempts = 3
    ∧ (fetchStockData ["TCS"] oracleRL).waits = [10, 20]
    ∧ (fetchStockData ["TCS"] oracleRL).waits ≠ [10, 20, 40]
    ∧ 40 ∉ (fetchStockData ["TCS"] oracleRL).waits := by
  refine ⟨by decide, by decide, by decide, by decide⟩

/-- C6 amended: the download is attempted at most 3 times; exactly
one more attempt than waits is made; at most two backoff waits occur,
the wait before retry number i+1 being 10 times 2 to the i (so 10s
then 20s, never 40s); an attempt is followed by a retry only when it
failed with a rate-limit-classified error before the final attempt;
and the outcome of the last attempt is the outcome of the call, a
final failure being raised as the wrapped exception. -/
theorem c6_retry_policy_amended : ∀ (stocks : List String) (oracle : Nat → Except String (List PRow)),
    (fetchStockData stocks oracle).attempts ≤ 3
    ∧ (fetchStockData stocks oracle).attempts = (fetchStockData stocks oracle).waits.length + 1
    ∧ (fetchStockData stocks oracle).waits.length ≤ 2
    ∧ (∀ i (h : i < (fetchStockData stocks oracle).waits.length),
        (fetchStockData stocks oracle).waits.get ⟨i, h⟩ = 10 * 2 ^ i)
    ∧ (∀ k, k + 1 < (fetchStockData stocks oracle).attempts →
        k < maxRetries - 1 ∧ ∃ e, attemptOnce stocks (oracle k) = .error e ∧ rateLimited e = true)
    ∧ (∀ m, attemptOnce stocks (oracle ((fetchStockData stocks oracle).attempts - 1)) = .ok m →
        (fetchStockData stocks oracle).result = .ok m)
    ∧ (∀ e, attemptOnce stocks (oracle ((fetchStockData stocks oracle).attempts - 1)) = .error e →
        (fetchStockData stocks oracle).result = .err stocks (wrapMsg stocks e)) := by
  intro stocks oracle
  rcases fetch_cases stocks oracle with
    ⟨m, h0, hT⟩ | ⟨e0, h0, hr0, hT⟩ | ⟨e0, m, h0, hr0, h1, hT⟩ |
    ⟨e0, e1, h0, hr0, h1, hr1, hT⟩ | ⟨e0, e1, m, h0, hr0, h1, hr1, h2, hT⟩ |
    ⟨e0, e1, e2, h0, hr0, h1, hr1, h2, hT⟩ <;> rw [hT] <;> simp only []
  · refine ⟨by norm_num, by norm_num, by norm_num, ?_, ?_, ?_, ?_⟩
    · intro i h
      exact absurd h (by simp)
    · intro k hk
      omega
    · intro m1 hm1
      rw [h0] at hm1
      cases hm1
      rfl
    · intro e he
      rw [h0] at he
      exact absurd he (by simp)
  · refine ⟨by norm_num, by norm_num, by norm_num, ?_, ?_, ?_, ?_⟩
    · intro i h
      exact absurd h (by simp)
    · intro k hk
      omega
    · intro m1 hm1
      rw [h0] at hm1
      exact absurd hm1 (by simp)
    · intro e he
      rw [h0] at he
      cases he
      rfl
  · refine ⟨by norm_num, by norm_num, by norm_num, ?_, ?_, ?_, ?_⟩
    · intro i h
      have hlt : i < 1 := by simpa using h
      interval_cases i
      rfl
    · intro k hk
      have hk0 : k = 0 := by omega
      subst hk0
      exact ⟨by norm_num [maxRetries], e0, h0, hr0⟩
    · intro m1 hm1
      rw [h1] at hm1
      cases hm1
      rfl
    · intro e he
      rw [h1] at he
      exact absurd he (by simp)
  · refine ⟨by norm_num, by norm_num, by norm_num, ?_, ?_, ?_, ?_⟩
    · intro i h
      have hlt : i < 1 := by simpa using h
      interval_cases i
      rfl
    · intro k hk
      have hk0 : k = 0 := by omega
      subst hk0
      exact ⟨by norm_num [maxRetries], e0, h0, hr0⟩
    · intro m1 hm1
      rw [h1] at hm1
      exact absurd hm1 (by simp)
    · intro e he
      rw [h1] at he
      cases he
      rfl
  · refine ⟨by norm_num, by norm_num, by norm_num, ?_, ?_, ?_, ?_⟩
    · intro i h
      have hlt : i < 2 := by simpa using h
      interval_cases i <;> rfl
    · intro k hk
      have hk01 : k = 0 ∨ k = 1 := by omega
      rcases hk01 with hk0 | hk1
      · subst hk0
        exact ⟨by norm_num [maxRetries], e0, h0, hr0⟩
      · subst hk1
        exact ⟨by norm_num [maxRetries], e1, h1, hr1⟩
    · intro m1 hm1
      rw [h2] at hm1
      cases hm1
      rfl
    · intro e he
      rw [h2] at he
      exact absurd he (by simp)
  · refine ⟨by norm_num, by norm_num, by norm_num, ?_, ?_, ?_, ?_⟩
    · intro i h
      have hlt : i < 2 := by simpa using h
      interval_cases i <;> rfl
    · intro k hk
      have hk01 : k = 0 ∨ k = 1 := by omega
      rcases hk01 with hk0 | hk1
      · subst hk0
        exact ⟨by norm_num [maxRetries], e0, h0, hr0⟩
      · subst hk1
        exact ⟨by norm_num [maxRetries], e1, h1, hr1⟩
    · intro m1 hm1
      rw [h2] at hm1
      exact absurd hm1 (by simp)
    · intro e he
      rw [h2] at he
      cases he
      rfl

/-- Witness for the amended C6: on the always-rate-limited oracle the
first backoff wait is 10 times 2 to the 0. -/
theorem c6_retry_policy_amended_witness :
    (fetchStockData ["TCS"] oracleRL).waits.get ⟨0, by decide⟩ = 10 * 2 ^ 0 :=
  (c6_retry_policy_amended ["TCS"] oracleRL).2.2.2.1 0 (by decide)

/-- C10: every matrix returned by a successful fetch_stock_data call
is non-empty and free of missing values, and the callers dedicated
empty-matrix branch can never fire on it. -/
theorem c10_no_empty_result : ∀ (stocks : List String) (oracle : Nat → Except String (List PRow)) (m : List PRow),
    (fetchStockData stocks oracle).result = .ok m →
    m ≠ []
    ∧ (∀ r ∈ m, rowComplete r = true)
    ∧ ∀ mcalc : List PRow → Except String Metrics,
        Event.noData stocks ∉ portfolioSegment stocks (.ok m) mcalc := by
  intro stocks oracle m h
  obtain ⟨a, ha⟩ := fetch_ok_attempt h
  obtain ⟨_, hne, hcomp⟩ := attemptOnce_ok ha
  refine ⟨hne, hcomp, ?_⟩
  intro mcalc
  by_cases hs : stocks = []
  · simp [portfolioSegment, hs]
  · cases hc : mcalc m with
    | error msg => simp [portfolioSegment, hs, hne, hc]
    | ok mets => simp [portfolioSegment, hs, hne, hc]

/-- Witness for C10 on a concrete clean fetch. -/
theorem c10_no_empty_result_witness :
    (fetchStockData ["INFY"] oracleClean2).result = .ok rawClean2 ∧ rawClean2 ≠ [] := by
  have h : (fetchStockData ["INFY"] oracleClean2).result = .ok rawClean2 := by decide
  exact ⟨h, (c10_no_empty_result ["INFY"] oracleClean2 rawClean2 h).1⟩

/-- C3 counterexample: when alignment leaves no row, fetch_stock_data
does not return the empty matrix to the caller — it raises, so the
result is the wrapped exception and is not ok of the empty matrix. -/
theorem c3_empty_counterexample :
    dropna rawGaps = []
    ∧ (fetchStockData ["TCS"] oracleGaps).result
        = .err ["TCS"] (wrapMsg ["TCS"] (.noValid ["TCS"]))
    ∧ (fetchStockData ["TCS"] oracleGaps).result ≠ .ok [] := by
  have h : (fetchStockData ["TCS"] oracleGaps).result
      = .err ["TCS"] (wrapMsg ["TCS"] (.noValid ["TCS"])) := by decide
  refine ⟨rfl, h, ?_⟩
  rw [h]
  simp

/-- C3 amended: when every download attempt yields rows that dropna
empties out, fetch_stock_data raises the wrapped no-valid-data
exception naming the stocks instead of returning an empty matrix; the
caller reports that exception through its generic per-portfolio error
handler, and its dedicated empty-matrix branch is never reached. -/
theorem c3_empty_alignment_amended : ∀ (stocks : List String) (oracle : Nat → Except String (List PRow)),
    (∀ a, ∃ raw, oracle a = .ok raw ∧ dropna raw = []) → stocks ≠ [] →
    (fetchStockData stocks oracle).result = .err stocks (wrapMsg stocks (.noValid stocks))
    ∧ (∀ m, (fetchStockData stocks oracle).result ≠ .ok m)
    ∧ ∀ mcalc : List PRow → Except String Metrics,
        portfolioSegment stocks (fetchStockData stocks oracle).result mcalc
          = [.errorShown ("Error: " ++ wrapMsg stocks (.noValid stocks))]
        ∧ Event.noData stocks ∉ portfolioSegment stocks (fetchStockData stocks oracle).result mcalc := by
  intro stocks oracle h hs
  have hatt : ∀ a, attemptOnce stocks (oracle a) = .error (.noValid stocks) := by
    intro a
    obtain ⟨raw, hr, hd⟩ := h a
    simp [attemptOnce, hr, hd]
  have hres : (fetchStockData stocks oracle).result = .err stocks (wrapMsg stocks (.noValid stocks)) := by
    by_cases hrl : rateLimited (.noValid stocks) = true
    · simp [fetchStockData, fetchLoop, maxRetries, hatt 0, hatt 1, hatt 2, hrl]
    · simp [fetchStockData, fetchLoop, maxRetries, hatt 0, hrl]
  refine ⟨hres, ?_, ?_⟩
  · intro m
    rw [hres]
    simp
  · intro mcalc
    rw [hres]
    constructor
    · simp [portfolioSegment, hs]
    · simp [portfolioSegment, hs]

/-- Witness for the amended C3 on the all-gaps oracle. -/
theorem c3_empty_alignment_amended_witness :
    (fetchStockData ["TCS"] oracleGaps).result
      = .err ["TCS"] (wrapMsg ["TCS"] (.noValid ["TCS"])) :=
  (c3_empty_alignment_amended ["TCS"] oracleGaps (fun _ => ⟨rawGaps, rfl, rfl⟩) (by simp)).1

/-- C4: a failure of one portfolio never prevents the other from
being processed, for a failure of the fetch as well as of the metrics
computation: when the A fetch raises, or the A fetch succeeds and the
A metrics computation raises, the run still shows exactly the full B
segment after the A error; symmetrically, a B fetch or B metrics
failure leaves the already completed A segment unchanged before the B
error; the comparison then reports its own error instead of the
table. -/
theorem c4_portfolio_isolation : ∀ (stocksA stocksB sA sB : List String)
    (msgA msgB emsgA emsgB : String) (mA mB : List PRow) (fA fB : FetchOut)
    (mcalcA mcalcB : List PRow → Except String Metrics),
    stocksA ≠ [] → stocksB ≠ [] →
    (showAnalysis stocksA stocksB (.err sA msgA) fB mcalcA mcalcB
      = Event.errorShown ("Error: " ++ msgA) :: (portfolioSegment stocksB fB mcalcB ++ [Event.cmpError]))
    ∧ (mA ≠ [] → mcalcA mA = .error emsgA →
        showAnalysis stocksA stocksB (.ok mA) fB mcalcA mcalcB
          = Event.errorShown ("Error: " ++ emsgA) :: (portfolioSegment stocksB fB mcalcB ++ [Event.cmpError]))
    ∧ (showAnalysis stocksA stocksB fA (.err sB msgB) mcalcA mcalcB
      = portfolioSegment stocksA fA mcalcA ++ [Event.errorShown ("Error: " ++ msgB), Event.cmpError])
    ∧ (mB ≠ [] → mcalcB mB = .error emsgB →
        showAnalysis stocksA stocksB fA (.ok mB) mcalcA mcalcB
          = portfolioSegment stocksA fA mcalcA ++ [Event.errorShown ("Error: " ++ emsgB), Event.cmpError]) := by
  intro stocksA stocksB sA sB msgA msgB emsgA emsgB mA mB fA fB mcalcA mcalcB hA hB
  refine ⟨?_, ?_, ?_, ?_⟩
  · simp [showAnalysis, portfolioSegment, metricsOf, comparisonSegment, hA, hB]
  · intro hmA hcA
    simp [showAnalysis, portfolioSegment, metricsOf, comparisonSegment, Except.toOption,
      hA, hB, hmA, hcA]
  · cases hma : metricsOf stocksA fA mcalcA with
    | none => simp [showAnalysis, portfolioSegment, metricsOf, comparisonSegment, hA, hB, hma]
    | some x => simp [showAnalysis, portfolioSegment, metricsOf, comparisonSegment, hA, hB, hma]
  · intro hmB hcB
    cases hma : metricsOf stocksA fA mcalcA with
    | none => simp [showAnalysis, portfolioSegment, metricsOf, comparisonSegment, Except.toOption,
        hA, hB, hma, hmB, hcB]
    | some x => simp [showAnalysis, portfolioSegment, metricsOf, comparisonSegment, Except.toOption,
        hA, hB, hma, hmB, hcB]

/-- Witness for C4: a concrete run where the A fetch succeeds but the
A metrics computation fails, and B is still fully processed. -/
theorem c4_portfolio_isolation_witness :
    showAnalysis ["TCS"] ["INFY"] (.ok rawClean) (.ok rawClean2)
      (fun _ => .error "calcfail") (fun _ => .ok [("CAGR", 1)])
    = Event.errorShown "Error: calcfail"
      :: (portfolioSegment ["INFY"] (.ok rawClean2) (fun _ => .ok [("CAGR", 1)]) ++ [Event.cmpError]) :=
  (c4_portfolio_isolation ["TCS"] ["INFY"] [] [] "x" "y" "calcfail" "z"
    rawClean rawClean2 (.ok []) (.ok rawClean2)
    (fun _ => .error "calcfail") (fun _ => .ok [("CAGR", 1)])
    (by simp) (by simp)).2.1 (by simp [rawClean]) rfl

/-- Helper: for a non-empty weight dict, validity is the 0.01
tolerance around a total of 100. -/
theorem validWeights_iff {w : List ℚ} (h : w ≠ []) :
    validWeights w = true ↔ |w.sum - 100| ≤ 1/100 := by
  unfold validWeights
  rw [if_neg h]
  split_ifs with hc
  · constructor
    · intro hf
      simp at hf
    · intro hle
      exact absurd hc (not_lt.mpr hle)
  · constructor
    · intro _
      exact not_lt.mp hc
    · intro _
      rfl

/-- C5 counterexample: with Portfolio A submitting weights [100]
(within tolerance) and Portfolio B submitting [50], the gate stops
on B before anything is computed, so A is not invoked although A is
within tolerance — the per-portfolio if-and-only-if fails. -/
theorem c5_weight_gate_counterexample :
    analyzeGate [100] [50] = .stopped "Portfolio B" 50
    ∧ |([100] : List ℚ).sum - 100| ≤ 1/100
    ∧ ([100] : List ℚ) ≠ []
    ∧ invokedA (analyzeGate [100] [50]) = false := by
  have hg : analyzeGate [100] [50] = .stopped "Portfolio B" 50 := by
    norm_num [analyzeGate, validWeights]
  refine ⟨hg, by norm_num, by simp, ?_⟩
  rw [hg]
  rfl

/-- C5 amended: the computation phase is entered for a submitted
portfolio if and only if both submitted weight dicts pass the 0.01
tolerance around 100 (the run stops altogether when either is
violated, with an error naming that portfolio and its total), so the
metrics engine is only ever called with weights summing to 100 within
0.01. -/
theorem c5_weight_gate_amended : ∀ wa wb : List ℚ,
    (invokedA (analyzeGate wa wb) = true ↔ wa ≠ [] ∧ validWeights wa = true ∧ validWeights wb = true)
    ∧ (invokedB (analyzeGate wa wb) = true ↔ wb ≠ [] ∧ validWeights wa = true ∧ validWeights wb = true)
    ∧ (wa ≠ [] → (validWeights wa = true ↔ |wa.sum - 100| ≤ 1/100))
    ∧ (invokedA (analyzeGate wa wb) = true → |wa.sum - 100| ≤ 1/100)
    ∧ (invokedB (analyzeGate wa wb) = true → |wb.sum - 100| ≤ 1/100)
    ∧ (∀ name total, analyzeGate wa wb = .stopped name total →
        (name = "Portfolio A" ∧ total = wa.sum ∧ wa ≠ [] ∧ ¬ |wa.sum - 100| ≤ 1/100)
        ∨ (name = "Portfolio B" ∧ total = wb.sum ∧ wb ≠ [] ∧ ¬ |wb.sum - 100| ≤ 1/100)) := by
  intro wa wb
  have hiffA : invokedA (analyzeGate wa wb) = true ↔ (wa ≠ [] ∧ validWeights wa = true ∧ validWeights wb = true) := by
    unfold analyzeGate
    split_ifs with hA hB
    · simp [invokedA, hA.2]
    · simp [invokedB, invokedA, hB.2]
    · simp only [invokedA, decide_eq_true_iff]
      constructor
      · intro hane
        refine ⟨hane, ?_, ?_⟩
        · cases hv : validWeights wa with
          | false => exact absurd ⟨hane, hv⟩ hA
          | true => rfl
        · by_cases hbne : wb = []
          · subst hbne
            rfl
          · cases hv : validWeights wb with
            | false => exact absurd ⟨hbne, hv⟩ hB
            | true => rfl
      · rintro ⟨hane, _, _⟩
        exact hane
  have hiffB : invokedB (analyzeGate wa wb) = true ↔ (wb ≠ [] ∧ validWeights wa = true ∧ validWeights wb = true) := by
    unfold analyzeGate
    split_ifs with hA hB
    · simp [invokedB, hA.2]
    · simp [invokedB, hB.2]
    · simp only [invokedB, decide_eq_true_iff]
      constructor
      · intro hbne
        refine ⟨hbne, ?_, ?_⟩
        · by_cases hane : wa = []
          · subst hane
            rfl
          · cases hv : validWeights wa with
            | false => exact absurd ⟨hane, hv⟩ hA
            | true => rfl
        · cases hv : validWeights wb with
          | false => exact absurd ⟨hbne, hv⟩ hB
          | true => rfl
      · rintro ⟨hbne, _, _⟩
        exact hbne
  refine ⟨hiffA, hiffB, fun h => validWeights_iff h, ?_, ?_, ?_⟩
  · intro hinv
    obtain ⟨hane, hva, _⟩ := hiffA.mp hinv
    exact (validWeights_iff hane).mp hva
  · intro hinv
    obtain ⟨hbne, _, hvb⟩ := hiffB.mp hinv
    exact (validWeights_iff hbne).mp hvb
  · intro name total hst
    unfold analyzeGate at hst
    split_ifs at hst with hA hB
    · injection hst with h1 h2
      left
      refine ⟨h1.symm, h2.symm, hA.1, ?_⟩
      intro hle
      have hvt := (validWeights_iff hA.1).mpr hle
      rw [hA.2] at hvt
      exact absurd hvt (by simp)
    · injection hst with h1 h2
      right
      refine ⟨h1.symm, h2.symm, hB.1, ?_⟩
      intro hle
      have hvt := (validWeights_iff hB.1).mpr hle
      rw [hB.2] at hvt
      exact absurd hvt (by simp)

/-- Witness for the amended C5: a run where both portfolios are
within tolerance proceeds and the engine precondition holds. -/
theorem c5_weight_gate_amended_witness :
    invokedA (analyzeGate [100] [40, 60]) = true
    ∧ |([100] : List ℚ).sum - 100| ≤ 1/100 := by
  have hinv : invokedA (analyzeGate [100] [40, 60]) = true := by
    norm_num [analyzeGate, validWeights, invokedA]
  exact ⟨hinv, (c5_weight_gate_amended [100] [40, 60]).2.2.2.1 hinv⟩

end Nifty
